import Mathlib

/-!
Verification of `src/particle_filter.cpp` (a 2-D particle filter for
vehicle localization).

Embedding conventions
  * C++ `double` arithmetic is embedded as exact rational arithmetic (`ℚ`).
    Floating-point rounding is idealized away; every property below is a
    property of the exact-real algorithm the code writes down.
  * `sin`, `cos`, `exp` from `<math.h>` have no exact rational values, so the
    model is parametrized by abstract functions `sinf`, `cosf`, `expf`
    (record `MathModel`); theorems quantify over them and add the concrete
    evaluation facts they need (for example `cosf 0 = 1`) as hypotheses.
  * Every draw from a C++ random distribution is modelled by an explicit
    oracle stream `ℕ → ℚ`: `normal_distribution(mu, sigma)(gen)` becomes
    `mu + sigma * z i` for the next stream element `z i`, and
    `uniform_real_distribution(0, w)(gen)` becomes `u i * w` with
    `0 ≤ u i ≤ 1`.  `std::default_random_engine` is default-constructed
    inside `prediction` and `resample`, so within one process every call
    reads the same fixed stream; this is made explicit where it matters.
  * The unbounded `while` loop inside `resample` is embedded with an explicit
    fuel parameter and an `Option` result: `none` models non-termination
    within the given fuel.
  * `prediction` and `updateWeights` iterate `for (i = 0; i < num_particles;
    ++i)` over `particles[i]` (respectively range-for over `particles`).  In
    every state with defined C++ behavior `num_particles` equals
    `particles.size()` (`init` establishes it, no stage changes either side
    independently), so these loops are embedded as traversals of the
    particle list; `resample`, whose loop count and modulus are literally
    `num_particles`, keeps the field.
-/

/-- Modelled from the spec and the (absent) `helper_functions.h`: one
observation, `struct LandmarkObs { int id; double x; double y; }`. -/
structure LandmarkObs where
  id : ℤ
  x : ℚ
  y : ℚ
deriving DecidableEq

/-- Modelled from the spec and the (absent) `helper_functions.h`: one map
landmark, `Map::single_landmark_s { int id_i; float x_f; float y_f; }`.
The map itself (`Map`) is just its `landmark_list`, embedded as
`List Landmark`. -/
structure Landmark where
  id_i : ℤ
  x_f : ℚ
  y_f : ℚ
deriving DecidableEq

/-- Modelled from the spec and the (absent) `particle_filter.h`: a particle
carries an id, a pose `(x, y, theta)`, a weight, and association metadata. -/
structure Particle where
  id : ℤ
  x : ℚ
  y : ℚ
  theta : ℚ
  weight : ℚ
  associations : List ℤ := []
  sense_x : List ℚ := []
  sense_y : List ℚ := []
deriving DecidableEq

/-- Default particle used for out-of-range list reads (C++ indexing out of
range is undefined; all theorems below stay inside the range). -/
def dfltParticle : Particle :=
  { id := 0, x := 0, y := 0, theta := 0, weight := 0 }

/-- Default landmark used for out-of-range list reads. -/
def dfltLandmark : Landmark :=
  { id_i := 0, x_f := 0, y_f := 0 }

/-- Modelled from the spec and the (absent) `particle_filter.h`: the filter
state — `num_particles`, the particle vector, the cached `max_weight`, and
the `is_initialized` flag. -/
structure PFState where
  num_particles : ℕ
  particles : List Particle
  max_weight : ℚ
  is_initialized : Bool
deriving DecidableEq

/-- Modelled from the spec and the (absent) `particle_filter.h`: the state a
`ParticleFilter` object has before `init` runs — no particles, zero count,
flag down. -/
def initialState : PFState :=
  { num_particles := 0, particles := [], max_weight := 0, is_initialized := false }

/-- Abstract stand-ins for the `<math.h>` transcendental functions used by
the code (they have no exact rational embedding) plus the constant
`1 / (2*pi)` of the Gaussian normalizer. -/
structure MathModel where
  sinf : ℚ → ℚ
  cosf : ℚ → ℚ
  expf : ℚ → ℚ
  inv2pi : ℚ

/-- `List.map` with the element's position passed to the function; used to
embed indexed loops over the particle vector. -/
def mapWithIndex (f : ℕ → Particle → Particle) : ℕ → List Particle → List Particle
  | _, [] => []
  | i, p :: ps => f i p :: mapWithIndex f (i + 1) ps

/-- Squared Euclidean distance, the argument of `sqrt` in
`sqrt(pow(observation.x - x_f, 2) + pow(observation.y - y_f, 2))`. -/
def distSq (x1 y1 x2 y2 : ℚ) : ℚ :=
  (x1 - x2) ^ 2 + (y1 - y2) ^ 2

/-- Integer square root `⌊√n⌋`, written structurally so that it evaluates by
`rfl`: the filter keeps exactly the numbers `0, 1, …, ⌊√n⌋` (those `k ≤ n`
with `k * k ≤ n`), so the length of the filtered list is `⌊√n⌋ + 1`. -/
def isqrt (n : ℕ) : ℕ :=
  ((List.range (n + 1)).filter (fun k => k * k ≤ n)).length - 1

/-- The value the C++ statement `min_dist = curr_dist;` stores when the
`double` `curr_dist = sqrt q` (with `q ≥ 0`) is converted to the `int`
variable `min_dist`: conversion truncates toward zero, so the stored value
is `⌊√q⌋`, which for a rational `q ≥ 0` equals `isqrt ⌊q⌋`
(an integer `k` satisfies `k ≤ √q ↔ k^2 ≤ q ↔ k^2 ≤ ⌊q⌋`). -/
def truncSqrt (q : ℚ) : ℕ :=
  isqrt (Int.toNat ⌊q⌋)

/-- Loop body of `ParticleFilter::dataAssociation` (lines 111–129).  The C++
state is `int closest_landmark_id = 0; int min_dist = 999999;` and, per
landmark `i`, `curr_dist = sqrt (distSq …)` with the update guarded by
`curr_dist < min_dist`.  Because `min_dist` holds a nonnegative integer and
`curr_dist = √s` with `s ≥ 0`, the exact-real comparison
`√s < min_dist` is equivalent to `s < min_dist ^ 2`, which is how the guard
is embedded (no square root is needed on the rational side); the truncating
assignment `min_dist = curr_dist` becomes `truncSqrt s`. -/
def daLoop (ox oy : ℚ) : List Landmark → ℕ → ℕ → ℕ → ℕ
  | [], _, closest_landmark_id, _ => closest_landmark_id
  | lm :: rest, i, closest_landmark_id, min_dist =>
    let curr := distSq ox oy lm.x_f lm.y_f
    if curr < (min_dist : ℚ) ^ 2 then
      daLoop ox oy rest (i + 1) i (truncSqrt curr)
    else
      daLoop ox oy rest (i + 1) closest_landmark_id min_dist

/-- `ParticleFilter::dataAssociation` (lines 102–130): returns the index of
the chosen landmark in the landmark list. -/
def dataAssociation (observation : LandmarkObs) (map_landmarks : List Landmark) : ℕ :=
  daLoop observation.x observation.y map_landmarks 0 0 999999

/-- The true nearest-landmark relation the spec asks for: index `j` is at
minimum Euclidean distance among the landmarks (squared distances compare
the same way as distances). -/
def isNearest (observation : LandmarkObs) (map_landmarks : List Landmark) (j : ℕ) : Prop :=
  j < map_landmarks.length ∧
    ∀ k < map_landmarks.length,
      distSq observation.x observation.y
          (map_landmarks.getD j dfltLandmark).x_f (map_landmarks.getD j dfltLandmark).y_f ≤
        distSq observation.x observation.y
          (map_landmarks.getD k dfltLandmark).x_f (map_landmarks.getD k dfltLandmark).y_f

/-- The noiseless motion model of `ParticleFilter::prediction`
(lines 79–88): straight-line motion when `yaw_rate == 0`, else the
bicycle/arc model. -/
def motionPredict (M : MathModel) (delta_t velocity yaw_rate x y theta : ℚ) : ℚ × ℚ × ℚ :=
  if yaw_rate = 0 then
    (x + velocity * M.cosf theta * delta_t,
     y + velocity * M.sinf theta * delta_t,
     theta)
  else
    (x + velocity * (M.sinf (theta + yaw_rate * delta_t) - M.sinf theta) / yaw_rate,
     y + velocity * (-(M.cosf (theta + yaw_rate * delta_t)) + M.cosf theta) / yaw_rate,
     theta + yaw_rate * delta_t)

/-- Per-particle body of the `prediction` loop (lines 74–99): compute the
noiseless pose, then overwrite the pose with a Gaussian sample centered at
it — `normal_distribution(mu, sigma)(gen)` is embedded as
`mu + sigma * noise k` where `noise` is the engine's normal-variate stream
and draws happen in the order x, y, theta per particle. -/
def predictParticle (M : MathModel) (delta_t : ℚ) (std_pos : ℚ × ℚ × ℚ)
    (velocity yaw_rate : ℚ) (noise : ℕ → ℚ) (i : ℕ) (p : Particle) : Particle :=
  let m := motionPredict M delta_t velocity yaw_rate p.x p.y p.theta
  { p with
      x := m.1 + std_pos.1 * noise (3 * i),
      y := m.2.1 + std_pos.2.1 * noise (3 * i + 1),
      theta := m.2.2 + std_pos.2.2 * noise (3 * i + 2) }

/-- `ParticleFilter::prediction` (lines 62–100). -/
def prediction (M : MathModel) (delta_t : ℚ) (std_pos : ℚ × ℚ × ℚ)
    (velocity yaw_rate : ℚ) (noise : ℕ → ℚ) (s : PFState) : PFState :=
  { s with
      particles :=
        mapWithIndex (predictParticle M delta_t std_pos velocity yaw_rate noise) 0 s.particles }

/-- The C++ `prediction` constructs `std::default_random_engine gen;` inside
the call body (line 72) instead of holding it as filter state, so every call
within one process draws from a freshly default-seeded engine: the stream of
normal variates consumed is one fixed sequence `z`, the same at every call.
`predictionCpp z` is therefore the per-call semantics of
`ParticleFilter::prediction`, for `z` the (abstract) variate stream of a
default-constructed engine. -/
def predictionCpp (z : ℕ → ℚ) (M : MathModel) (delta_t : ℚ) (std_pos : ℚ × ℚ × ℚ)
    (velocity yaw_rate : ℚ) (s : PFState) : PFState :=
  prediction M delta_t std_pos velocity yaw_rate z s

/-- `ParticleFilter::init` (lines 27–60): 100 particles sampled around the
given pose, weight 1, flag raised (the draw order per particle is x, y,
theta, as in the C++ loop). -/
def init (x y theta : ℚ) (std : ℚ × ℚ × ℚ) (noise : ℕ → ℚ) (s : PFState) : PFState :=
  { s with
      num_particles := 100,
      particles := s.particles ++ (List.range 100).map (fun i =>
        { id := (i : ℤ),
          x := x + std.1 * noise (3 * i),
          y := y + std.2.1 * noise (3 * i + 1),
          theta := theta + std.2.2 * noise (3 * i + 2),
          weight := 1 }),
      is_initialized := true }

/-- Modelled from the spec: `transform_obs` from the absent
`helper_functions.h` — vehicle frame to map frame, rotation by the
particle's heading then translation by the particle's position. -/
def transform_obs (M : MathModel) (xp yp theta : ℚ) (observation : LandmarkObs) : LandmarkObs :=
  { id := observation.id,
    x := xp + M.cosf theta * observation.x - M.sinf theta * observation.y,
    y := yp + M.sinf theta * observation.x + M.cosf theta * observation.y }

/-- Modelled from the spec: `normPdf2d` from the absent
`helper_functions.h` — the axis-aligned bivariate Gaussian density
`1/(2*pi*sx*sy) * exp (-(dx^2/(2*sx^2) + dy^2/(2*sy^2)))`, with `exp` and
`1/(2*pi)` taken from the abstract `MathModel`. -/
def normPdf2d (M : MathModel) (x y mu_x mu_y sig_x sig_y : ℚ) : ℚ :=
  M.inv2pi / (sig_x * sig_y) *
    M.expf (-((x - mu_x) ^ 2 / (2 * sig_x ^ 2) + (y - mu_y) ^ 2 / (2 * sig_y ^ 2)))

/-- Inner loop of `updateWeights` for one particle (lines 153–168): reset the
running weight to 1, then for each observation transform it with the
particle's own pose, associate it to a landmark index, and multiply in the
Gaussian density at the associated landmark. -/
def particleWeight (M : MathModel) (std_landmark : ℚ × ℚ) (observations : List LandmarkObs)
    (map_landmarks : List Landmark) (p : Particle) : ℚ :=
  observations.foldl (fun w observation =>
    let transformed_obs := transform_obs M p.x p.y p.theta observation
    let lid := dataAssociation transformed_obs map_landmarks
    w * normPdf2d M transformed_obs.x transformed_obs.y
          (map_landmarks.getD lid dfltLandmark).x_f (map_landmarks.getD lid dfltLandmark).y_f
          std_landmark.1 std_landmark.2) 1

/-- One step of the outer `updateWeights` loop (lines 152–174): store the
particle's new weight and update the running `max_weight`
(`if (particle.weight > max_weight) max_weight = particle.weight`). -/
def uwStep (M : MathModel) (std_landmark : ℚ × ℚ) (observations : List LandmarkObs)
    (map_landmarks : List Landmark) (acc : List Particle × ℚ) (p : Particle) :
    List Particle × ℚ :=
  let p' := { p with weight := particleWeight M std_landmark observations map_landmarks p }
  (acc.1 ++ [p'], if acc.2 < p'.weight then p'.weight else acc.2)

/-- `ParticleFilter::updateWeights` (lines 132–182): `max_weight` is reset to
0 before the loop; `sensor_range` is accepted and unused, as in the C++. -/
def updateWeights (M : MathModel) (sensor_range : ℚ) (std_landmark : ℚ × ℚ)
    (observations : List LandmarkObs) (map_landmarks : List Landmark) (s : PFState) : PFState :=
  let r := s.particles.foldl (uwStep M std_landmark observations map_landmarks) ([], 0)
  { s with particles := r.1, max_weight := r.2 }

/-- The `while (b > particles[index].weight)` loop of `resample`
(lines 205–208), over the weight list `ws` with wrap-around modulus `N`
(`num_particles` in the C++).  `fuel` bounds the number of iterations;
`none` means the loop did not finish within `fuel` steps. -/
def wheelWhile (ws : List ℚ) (N : ℕ) : ℕ → ℚ → ℕ → Option (ℚ × ℕ)
  | 0, b, index =>
    if ws.getD index 0 < b then none else some (b, index)
  | f + 1, b, index =>
    if ws.getD index 0 < b then
      wheelWhile ws N f (b - ws.getD index 0) ((index + 1) % N)
    else
      some (b, index)

/-- The `for (i = 0; i < num_particles; ++i)` resampling-wheel loop of
`resample` (lines 202–210): on draw `i` the accumulator gains
`rand_beta(gen) = u i * mw` (a `uniform_real_distribution(0, max_weight)`
sample), the while loop advances the wheel, and the particle at the
resulting index is appended.  `r` counts the remaining draws and `F` is the
per-draw fuel for the inner while loop. -/
def resampleLoop (ps : List Particle) (ws : List ℚ) (N : ℕ) (mw : ℚ) (u : ℕ → ℚ) (F : ℕ) :
    ℕ → ℕ → ℚ → ℕ → List Particle → Option (List Particle)
  | _, 0, _, _, acc => some acc
  | i, r + 1, b, index, acc =>
    match wheelWhile ws N F (b + u i * mw) index with
    | none => none
    | some (b', index') =>
        resampleLoop ps ws N mw u F (i + 1) r b' index'
          (acc ++ [ps.getD index' dfltParticle])

/-- `ParticleFilter::resample` (lines 184–213).  The C++ draws the starting
index from `std::discrete_distribution<> rand_index(0, num_particles)`:
that call selects the iterator-pair constructor, which builds the weight
vector `std::vector<double>(0, num_particles)` — the empty vector — and a
`discrete_distribution` over an empty weight sequence always returns 0.
The starting index is therefore the constant 0, not a uniform draw; `b`
starts at 0. -/
def resample (u : ℕ → ℚ) (F : ℕ) (s : PFState) : Option PFState :=
  match resampleLoop s.particles (s.particles.map Particle.weight) s.num_particles
      s.max_weight u F 0 s.num_particles 0 0 [] with
  | none => none
  | some l => some { s with particles := l }

/-- The resampling wheel exactly as the spec sentence states it, with the
starting index `start` — "drawn uniformly at random from `[0, N)`" — taken
as an input; the rest of the loop is the same stochastic wheel. -/
def resampleWheelSpec (u : ℕ → ℚ) (F : ℕ) (start : ℕ) (s : PFState) : Option PFState :=
  match resampleLoop s.particles (s.particles.map Particle.weight) s.num_particles
      s.max_weight u F 0 s.num_particles 0 start [] with
  | none => none
  | some l => some { s with particles := l }

/-- A throwaway math model for concrete counterexamples where the
transcendental values are irrelevant. -/
def M0 : MathModel :=
  { sinf := fun _ => 0, cosf := fun _ => 0, expf := fun _ => 0, inv2pi := 0 }

/-- A math model with a nonnegative density for concrete witnesses. -/
def M1 : MathModel :=
  { sinf := fun _ => 0, cosf := fun _ => 1, expf := fun _ => 1, inv2pi := 1 }

/-- Concrete zero-weight particle (index 0) for the resampling tests. -/
def pz0 : Particle :=
  { id := 0, x := 0, y := 0, theta := 0, weight := 0 }

/-- Concrete unit-weight particle (index 1) for the resampling tests. -/
def pw1 : Particle :=
  { id := 1, x := 1, y := 1, theta := 0, weight := 1 }

/-- Concrete zero-weight particle (index 1) for the degenerate resampling
test. -/
def pz1 : Particle :=
  { id := 1, x := 1, y := 1, theta := 0, weight := 0 }

/-- Two-particle state with weights `[0, 1]` and fresh `max_weight = 1`. -/
def csState : PFState :=
  { num_particles := 2, particles := [pz0, pw1], max_weight := 1, is_initialized := true }

/-- Two-particle state in the degenerate all-zero-weights situation
(`max_weight = 0`, as `updateWeights` caches it in that case). -/
def zwState : PFState :=
  { num_particles := 2, particles := [pz0, pz1], max_weight := 0, is_initialized := true }

/-- The particle at position `i` of the filter state (default-padded read). -/
def particleAt (s : PFState) (i : ℕ) : Particle :=
  s.particles.getD i dfltParticle

/-- Concrete observation for counterexamples. -/
def oTest : LandmarkObs :=
  { id := 0, x := 1, y := 0 }

/-- Concrete landmark for counterexamples. -/
def lmTest : Landmark :=
  { id_i := 1, x_f := 1, y_f := 0 }

/-! ## Helper lemmas -/

theorem mapWithIndex_length (f : ℕ → Particle → Particle) (l : List Particle) :
    ∀ j : ℕ, (mapWithIndex f j l).length = l.length := by
  induction l with
  | nil => intro j; rfl
  | cons p ps ih => intro j; simp [mapWithIndex, ih]

theorem mapWithIndex_getD (f : ℕ → Particle → Particle) (l : List Particle) :
    ∀ j i : ℕ, i < l.length →
      (mapWithIndex f j l).getD i dfltParticle = f (j + i) (l.getD i dfltParticle) := by
  induction l with
  | nil => intro j i h; simp at h
  | cons p ps ih =>
    intro j i h
    cases i with
    | zero => simp [mapWithIndex]
    | succ n =>
      simp only [mapWithIndex, List.getD_cons_succ]
      rw [ih (j + 1) n (by simpa using h)]
      congr 1
      omega

theorem mapWithIndex_frame (f : ℕ → Particle → Particle)
    (hf : ∀ k p, (f k p).id = p.id ∧ (f k p).weight = p.weight ∧
      (f k p).associations = p.associations ∧ (f k p).sense_x = p.sense_x ∧
      (f k p).sense_y = p.sense_y)
    (l : List Particle) :
    ∀ j i : ℕ,
      ((mapWithIndex f j l).getD i dfltParticle).id = (l.getD i dfltParticle).id ∧
      ((mapWithIndex f j l).getD i dfltParticle).weight = (l.getD i dfltParticle).weight ∧
      ((mapWithIndex f j l).getD i dfltParticle).associations =
        (l.getD i dfltParticle).associations ∧
      ((mapWithIndex f j l).getD i dfltParticle).sense_x = (l.getD i dfltParticle).sense_x ∧
      ((mapWithIndex f j l).getD i dfltParticle).sense_y = (l.getD i dfltParticle).sense_y := by
  induction l with
  | nil => intro j i; simp [mapWithIndex]
  | cons p ps ih =>
    intro j i
    cases i with
    | zero => simpa [mapWithIndex] using hf j p
    | succ n => simpa [mapWithIndex] using ih (j + 1) n

/-! ## Claim theorems -/

/-- C1.  The claim says `dataAssociation` always returns the index of the
landmark at minimum Euclidean distance.  The code stores the running
minimum distance in an `int` (`int min_dist`), so the stored minimum is the
truncation of the real distance; at the input below the first landmark is at
distance 2.9 (stored as 2) and the second at distance 2.5, the guard
`2.5 < 2` fails, and the function returns index 0 even though landmark 1 is
strictly closer.  This contradicts the code's own comment
("update if it's closer"), so it is a bug in the code, not in the claim. -/
theorem c1_dataAssociation_truncation_bug :
    dataAssociation { id := 0, x := 0, y := 0 }
        [{ id_i := 1, x_f := 29/10, y_f := 0 }, { id_i := 2, x_f := 5/2, y_f := 0 }] = 0 ∧
      distSq 0 0 (5/2) 0 < distSq 0 0 (29/10) 0 ∧
      ¬ isNearest { id := 0, x := 0, y := 0 }
          [{ id_i := 1, x_f := 29/10, y_f := 0 }, { id_i := 2, x_f := 5/2, y_f := 0 }] 0 := by
  have hlt : distSq 0 0 (5/2) 0 < distSq 0 0 (29/10) 0 := by
    rw [distSq, distSq]; norm_num
  refine ⟨?_, hlt, ?_⟩
  · have hf : ⌊distSq 0 0 (29/10) 0⌋ = (8:ℤ) := by rw [distSq]; norm_num
    have ht : truncSqrt (distSq 0 0 (29/10) 0) = 2 := by rw [truncSqrt, hf]; rfl
    have c1 : distSq 0 0 (29/10) 0 < ((999999:ℕ):ℚ) ^ 2 := by rw [distSq]; push_cast; norm_num
    have c2 : ¬ (distSq 0 0 (5/2) 0 < ((2:ℕ):ℚ) ^ 2) := by rw [distSq]; push_cast; norm_num
    simp only [dataAssociation, daLoop]
    rw [if_pos c1, ht, if_neg c2]
  · intro h
    have h2 := h.2 1 (by norm_num)
    simp only [List.getD, List.get?, Option.getD] at h2
    exact absurd h2 (not_le.mpr hlt)

/-- C7 counterexample.  The claim says an empty landmark collection must
fail with a distinguishable `EmptyMap` error rather than return a sentinel.
The C++ function has no failure path at all: with zero landmarks the loop
body never runs and the initial value `closest_landmark_id = 0` is
returned as a sentinel. -/
theorem c7_emptyMap_counterexample :
    dataAssociation { id := 7, x := 3, y := 4 } [] = 0 := by
  rfl

/-- C7 amended.  On an empty landmark collection `dataAssociation` raises
no error and returns the initial index 0 as a default value, for every
observation. -/
theorem c7_emptyMap_returns_default (observation : LandmarkObs) :
    dataAssociation observation [] = 0 := by
  rfl

/-- C5.  With zero process-noise standard deviations, `prediction` moves
every particle's pose exactly by the claimed motion model: the straight-line
formulas when the yaw rate is zero, the arc formulas (stated in the claim's
`(v/ω)·(…)` form) otherwise; and at the claim's concrete instance
(v = 10, Δt = 1, θ = 0, ω = 0, zero noise) the particle at (0,0,0) moves to
exactly (10,0,0). -/
theorem c5_prediction_motion_model (M : MathModel) (delta_t velocity yaw_rate : ℚ)
    (noise noise2 : ℕ → ℚ) (s : PFState) (i : ℕ)
    (hs0 : M.sinf 0 = 0) (hc0 : M.cosf 0 = 1) (hi : i < s.particles.length) :
    ((yaw_rate = 0 →
        particleAt (prediction M delta_t (0, 0, 0) velocity yaw_rate noise s) i =
          { particleAt s i with
              x := (particleAt s i).x +
                velocity * M.cosf (particleAt s i).theta * delta_t,
              y := (particleAt s i).y +
                velocity * M.sinf (particleAt s i).theta * delta_t,
              theta := (particleAt s i).theta }) ∧
      (yaw_rate ≠ 0 →
        particleAt (prediction M delta_t (0, 0, 0) velocity yaw_rate noise s) i =
          { particleAt s i with
              x := (particleAt s i).x + velocity / yaw_rate *
                (M.sinf ((particleAt s i).theta + yaw_rate * delta_t) -
                  M.sinf (particleAt s i).theta),
              y := (particleAt s i).y + velocity / yaw_rate *
                (M.cosf (particleAt s i).theta -
                  M.cosf ((particleAt s i).theta + yaw_rate * delta_t)),
              theta := (particleAt s i).theta + yaw_rate * delta_t })) ∧
      (prediction M 1 (0, 0, 0) 10 0 noise2
          { num_particles := 1,
            particles := [{ id := 0, x := 0, y := 0, theta := 0, weight := 1 }],
            max_weight := 0, is_initialized := true }).particles =
        [{ id := 0, x := 10, y := 0, theta := 0, weight := 1 }] := by
  constructor
  · have hq : particleAt (prediction M delta_t (0, 0, 0) velocity yaw_rate noise s) i =
        predictParticle M delta_t (0, 0, 0) velocity yaw_rate noise i
          (s.particles.getD i dfltParticle) := by
      simp only [particleAt, prediction]
      simpa using mapWithIndex_getD _ s.particles 0 i hi
    constructor
    · intro h0
      rw [hq]
      simp only [predictParticle, particleAt, motionPredict, if_pos h0]
      simp only [zero_mul, add_zero]
    · intro hne
      rw [hq]
      rcases hp : s.particles.getD i dfltParticle with ⟨pid, px, py, pth, pw, pa, psx, psy⟩
      simp only [predictParticle, motionPredict, if_neg hne, zero_mul, add_zero, particleAt,
        hp, Particle.mk.injEq]
      repeat' constructor
      all_goals first | trivial | ring
  · simp only [prediction, mapWithIndex, predictParticle, motionPredict, if_pos rfl,
      hs0, hc0]
    norm_num

/-- C10.  `prediction` changes only the pose fields: the particle count is
unchanged and every particle keeps its id, weight, and association metadata
(`associations`, `sense_x`, `sense_y`); stated for every read position `i`
(out-of-range reads return the shared default on both sides). -/
theorem c10_prediction_frame (M : MathModel) (delta_t : ℚ) (std_pos : ℚ × ℚ × ℚ)
    (velocity yaw_rate : ℚ) (noise : ℕ → ℚ) (s : PFState) :
    (prediction M delta_t std_pos velocity yaw_rate noise s).particles.length =
        s.particles.length ∧
      ∀ i : ℕ,
        (particleAt (prediction M delta_t std_pos velocity yaw_rate noise s) i).id =
            (particleAt s i).id ∧
          (particleAt (prediction M delta_t std_pos velocity yaw_rate noise s) i).weight =
            (particleAt s i).weight ∧
          (particleAt (prediction M delta_t std_pos velocity yaw_rate noise s) i).associations =
            (particleAt s i).associations ∧
          (particleAt (prediction M delta_t std_pos velocity yaw_rate noise s) i).sense_x =
            (particleAt s i).sense_x ∧
          (particleAt (prediction M delta_t std_pos velocity yaw_rate noise s) i).sense_y =
            (particleAt s i).sense_y := by
  constructor
  · simp only [prediction]
    exact mapWithIndex_length _ s.particles 0
  · intro i
    simp only [particleAt, prediction]
    exact mapWithIndex_frame (predictParticle M delta_t std_pos velocity yaw_rate noise)
      (fun k p => ⟨rfl, rfl, rfl, rfl, rfl⟩) s.particles 0 i

/-- C8 counterexample.  The claim says calling `prediction` or
`updateWeights` before `init` must fail with a `NotInitialized` error.  The
C++ bodies contain no precondition check and no failure path: on the
pre-`init` state both return normally (the particle loop is empty), so no
error of any kind reaches the caller. -/
theorem c8_no_error_counterexample :
    prediction M0 1 (1, 1, 1) 5 0 (fun _ => 1) initialState = initialState ∧
      updateWeights M0 50 (1, 1) [oTest] [lmTest] initialState = initialState :=
  ⟨rfl, rfl⟩

/-- C8 amended.  `prediction` and `updateWeights` perform no initialization
check: called on the pre-`init` state (whose particle collection is empty)
they return normally for every argument list — `prediction` is the
identity, and `updateWeights` only re-stores the reset `max_weight = 0` —
instead of failing with `NotInitialized`. -/
theorem c8_no_precondition_check (M : MathModel) (delta_t : ℚ) (std_pos : ℚ × ℚ × ℚ)
    (velocity yaw_rate : ℚ) (noise : ℕ → ℚ) (sensor_range : ℚ) (std_landmark : ℚ × ℚ)
    (observations : List LandmarkObs) (map_landmarks : List Landmark) :
    prediction M delta_t std_pos velocity yaw_rate noise initialState = initialState ∧
      updateWeights M sensor_range std_landmark observations map_landmarks initialState =
        initialState :=
  ⟨rfl, rfl⟩

/-- The noise offset `prediction` adds on top of the noiseless motion model
is `std_pos * z k` for the fixed stream positions `k = 3i, 3i+1, 3i+2` of
the call's engine stream `z` — independent of the incoming state. -/
theorem predictionCpp_offset (z : ℕ → ℚ) (M : MathModel) (delta_t : ℚ)
    (std_pos : ℚ × ℚ × ℚ) (velocity yaw_rate : ℚ) (s : PFState) (i : ℕ)
    (hi : i < s.particles.length) :
    (particleAt (predictionCpp z M delta_t std_pos velocity yaw_rate s) i).x -
        (motionPredict M delta_t velocity yaw_rate (particleAt s i).x (particleAt s i).y
          (particleAt s i).theta).1 = std_pos.1 * z (3 * i) ∧
      (particleAt (predictionCpp z M delta_t std_pos velocity yaw_rate s) i).y -
        (motionPredict M delta_t velocity yaw_rate (particleAt s i).x (particleAt s i).y
          (particleAt s i).theta).2.1 = std_pos.2.1 * z (3 * i + 1) ∧
      (particleAt (predictionCpp z M delta_t std_pos velocity yaw_rate s) i).theta -
        (motionPredict M delta_t velocity yaw_rate (particleAt s i).x (particleAt s i).y
          (particleAt s i).theta).2.2 = std_pos.2.2 * z (3 * i + 2) := by
  have hq : particleAt (predictionCpp z M delta_t std_pos velocity yaw_rate s) i =
      predictParticle M delta_t std_pos velocity yaw_rate z i
        (s.particles.getD i dfltParticle) := by
    simp only [particleAt, predictionCpp, prediction]
    simpa using mapWithIndex_getD _ s.particles 0 i hi
  rw [hq]
  simp only [predictParticle, particleAt]
  refine ⟨?_, ?_, ?_⟩ <;> ring

/-- C9.  The claim says the pseudorandom source is long-lived filter state,
so two successive `prediction` calls with identical inputs do not draw
identical noise sequences.  The code instead constructs
`std::default_random_engine gen;` inside each call (line 72; `resample` does
the same at line 192), so every call consumes the same default-seeded
stream `z`: for every particle, the Gaussian offsets added by a call and by
the immediately following call with the same inputs are exactly equal —
the noise sequences of successive calls are identical, not independent. -/
theorem c9_repeated_noise_sequence (z : ℕ → ℚ) (M : MathModel) (delta_t : ℚ)
    (std_pos : ℚ × ℚ × ℚ) (velocity yaw_rate : ℚ) (s : PFState) (i : ℕ)
    (hi : i < s.particles.length) :
    (particleAt (predictionCpp z M delta_t std_pos velocity yaw_rate s) i).x -
        (motionPredict M delta_t velocity yaw_rate (particleAt s i).x (particleAt s i).y
          (particleAt s i).theta).1 =
      (particleAt (predictionCpp z M delta_t std_pos velocity yaw_rate
            (predictionCpp z M delta_t std_pos velocity yaw_rate s)) i).x -
        (motionPredict M delta_t velocity yaw_rate
          (particleAt (predictionCpp z M delta_t std_pos velocity yaw_rate s) i).x
          (particleAt (predictionCpp z M delta_t std_pos velocity yaw_rate s) i).y
          (particleAt (predictionCpp z M delta_t std_pos velocity yaw_rate s) i).theta).1 ∧
      (particleAt (predictionCpp z M delta_t std_pos velocity yaw_rate s) i).y -
          (motionPredict M delta_t velocity yaw_rate (particleAt s i).x (particleAt s i).y
            (particleAt s i).theta).2.1 =
        (particleAt (predictionCpp z M delta_t std_pos velocity yaw_rate
              (predictionCpp z M delta_t std_pos velocity yaw_rate s)) i).y -
          (motionPredict M delta_t velocity yaw_rate
            (particleAt (predictionCpp z M delta_t std_pos velocity yaw_rate s) i).x
            (particleAt (predictionCpp z M delta_t std_pos velocity yaw_rate s) i).y
            (particleAt (predictionCpp z M delta_t std_pos velocity yaw_rate s) i).theta).2.1 ∧
      (particleAt (predictionCpp z M delta_t std_pos velocity yaw_rate s) i).theta -
          (motionPredict M delta_t velocity yaw_rate (particleAt s i).x (particleAt s i).y
            (particleAt s i).theta).2.2 =
        (particleAt (predictionCpp z M delta_t std_pos velocity yaw_rate
              (predictionCpp z M delta_t std_pos velocity yaw_rate s)) i).theta -
          (motionPredict M delta_t velocity yaw_rate
            (particleAt (predictionCpp z M delta_t std_pos velocity yaw_rate s) i).x
            (particleAt (predictionCpp z M delta_t std_pos velocity yaw_rate s) i).y
            (particleAt (predictionCpp z M delta_t std_pos velocity yaw_rate s) i).theta).2.2 := by
  have hl : (predictionCpp z M delta_t std_pos velocity yaw_rate s).particles.length =
      s.particles.length := mapWithIndex_length _ s.particles 0
  have h1 := predictionCpp_offset z M delta_t std_pos velocity yaw_rate s i hi
  have h2 := predictionCpp_offset z M delta_t std_pos velocity yaw_rate
    (predictionCpp z M delta_t std_pos velocity yaw_rate s) i (by rw [hl]; exact hi)
  exact ⟨h1.1.trans h2.1.symm, h1.2.1.trans h2.2.1.symm, h1.2.2.trans h2.2.2.symm⟩

/-- Witness for C9 at a concrete state and stream (the x component of the
repeated offset). -/
theorem c9_repeated_noise_sequence_witness :
    (0 : ℕ) < csState.particles.length ∧
      (particleAt (predictionCpp (fun n => (n : ℚ)) M0 1 (1, 1, 1) 3 0 csState) 0).x -
          (motionPredict M0 1 3 0 (particleAt csState 0).x (particleAt csState 0).y
            (particleAt csState 0).theta).1 =
        (particleAt (predictionCpp (fun n => (n : ℚ)) M0 1 (1, 1, 1) 3 0
              (predictionCpp (fun n => (n : ℚ)) M0 1 (1, 1, 1) 3 0 csState)) 0).x -
          (motionPredict M0 1 3 0
            (particleAt (predictionCpp (fun n => (n : ℚ)) M0 1 (1, 1, 1) 3 0 csState) 0).x
            (particleAt (predictionCpp (fun n => (n : ℚ)) M0 1 (1, 1, 1) 3 0 csState) 0).y
            (particleAt (predictionCpp (fun n => (n : ℚ)) M0 1 (1, 1, 1) 3 0 csState) 0).theta).1 :=
  ⟨by decide,
    (c9_repeated_noise_sequence (fun n => (n : ℚ)) M0 1 (1, 1, 1) 3 0 csState 0 (by decide)).1⟩

/-- Witness for C5: the claim's own concrete test vector, with the abstract
sine and cosine instantiated by functions satisfying `sinf 0 = 0` and
`cosf 0 = 1`. -/
theorem c5_prediction_motion_model_witness :
    (M1.sinf 0 = 0 ∧ M1.cosf 0 = 1 ∧ (0 : ℕ) < csState.particles.length) ∧
      (prediction M1 1 (0, 0, 0) 10 0 (fun _ => 0)
          { num_particles := 1,
            particles := [{ id := 0, x := 0, y := 0, theta := 0, weight := 1 }],
            max_weight := 0, is_initialized := true }).particles =
        [{ id := 0, x := 10, y := 0, theta := 0, weight := 1 }] :=
  ⟨⟨rfl, rfl, by decide⟩,
    (c5_prediction_motion_model M1 1 10 0 (fun _ => 0) (fun _ => 0) csState 0 rfl rfl
      (by decide)).2⟩

theorem foldl_mul_map_prod (f : LandmarkObs → ℚ) (l : List LandmarkObs) :
    ∀ a : ℚ, l.foldl (fun w observation => w * f observation) a = a * (l.map f).prod := by
  induction l with
  | nil => intro a; simp
  | cons o os ih =>
    intro a
    simp only [List.foldl_cons, List.map_cons, List.prod_cons, ih]
    ring

/-- The per-particle weight is the product of the per-observation Gaussian
densities (the running weight starts at 1). -/
theorem particleWeight_eq_prod (M : MathModel) (std_landmark : ℚ × ℚ)
    (observations : List LandmarkObs) (map_landmarks : List Landmark) (p : Particle) :
    particleWeight M std_landmark observations map_landmarks p =
      (observations.map (fun observation =>
        normPdf2d M (transform_obs M p.x p.y p.theta observation).x
          (transform_obs M p.x p.y p.theta observation).y
          (map_landmarks.getD
            (dataAssociation (transform_obs M p.x p.y p.theta observation) map_landmarks)
            dfltLandmark).x_f
          (map_landmarks.getD
            (dataAssociation (transform_obs M p.x p.y p.theta observation) map_landmarks)
            dfltLandmark).y_f
          std_landmark.1 std_landmark.2)).prod := by
  simp only [particleWeight]
  rw [foldl_mul_map_prod, one_mul]

/-- Unrolling the `updateWeights` fold: the new particle list is the map
that re-weights every particle, and the accumulated maximum is a fold of
the per-particle weights. -/
theorem uw_foldl (M : MathModel) (std_landmark : ℚ × ℚ) (observations : List LandmarkObs)
    (map_landmarks : List Landmark) (l : List Particle) :
    ∀ acc : List Particle × ℚ,
      l.foldl (uwStep M std_landmark observations map_landmarks) acc =
        (acc.1 ++ l.map (fun p =>
            { p with weight := particleWeight M std_landmark observations map_landmarks p }),
          (l.map (particleWeight M std_landmark observations map_landmarks)).foldl
            (fun m w => if m < w then w else m) acc.2) := by
  induction l with
  | nil => intro acc; simp
  | cons p ps ih =>
    intro acc
    simp only [List.foldl_cons, List.map_cons, uwStep, ih]
    simp

theorem foldl_max_ge_init (l : List ℚ) :
    ∀ a : ℚ, a ≤ l.foldl (fun m w => if m < w then w else m) a := by
  induction l with
  | nil => intro a; exact le_refl a
  | cons x xs ih =>
    intro a
    simp only [List.foldl_cons]
    refine le_trans ?_ (ih (if a < x then x else a))
    by_cases h : a < x
    · rw [if_pos h]; exact le_of_lt h
    · rw [if_neg h]

theorem foldl_max_ge_mem (l : List ℚ) :
    ∀ a x : ℚ, x ∈ l → x ≤ l.foldl (fun m w => if m < w then w else m) a := by
  induction l with
  | nil => intro a x hx; simp at hx
  | cons y ys ih =>
    intro a x hx
    simp only [List.foldl_cons]
    rcases List.mem_cons.mp hx with h | h
    · subst h
      refine le_trans ?_ (foldl_max_ge_init ys (if a < x then x else a))
      by_cases hax : a < x
      · rw [if_pos hax]
      · rw [if_neg hax]; exact le_of_not_lt hax
    · exact ih _ x h

theorem foldl_max_cases (l : List ℚ) :
    ∀ a : ℚ, l.foldl (fun m w => if m < w then w else m) a = a ∨
      ∃ x ∈ l, l.foldl (fun m w => if m < w then w else m) a = x := by
  induction l with
  | nil => intro a; exact Or.inl rfl
  | cons y ys ih =>
    intro a
    simp only [List.foldl_cons]
    rcases ih (if a < y then y else a) with h | ⟨x, hx, hfx⟩
    · by_cases hay : a < y
      · right
        exact ⟨y, List.mem_cons_self y ys, by rw [h, if_pos hay]⟩
      · left
        rw [h, if_neg hay]
    · right
      exact ⟨x, List.mem_cons_of_mem y hx, hfx⟩

theorem getD_map_particle (F : Particle → Particle) (l : List Particle) :
    ∀ i : ℕ, i < l.length → (l.map F).getD i dfltParticle = F (l.getD i dfltParticle) := by
  induction l with
  | nil => intro i h; simp at h
  | cons p ps ih =>
    intro i h
    cases i with
    | zero => rfl
    | succ n => simpa using ih n (by simpa using h)

/-- C4.  For every particle, `updateWeights` sets the weight to the product,
over the observation batch, of the bivariate Gaussian density evaluated at
the map-frame transform of the observation under that particle's own pose,
centered at the associated landmark — starting from a running weight reset
to 1 (the prior weight does not appear).  The map must be non-empty (an
empty map would make the C++ landmark access out of bounds). -/
theorem c4_updateWeights_product (M : MathModel) (sensor_range : ℚ) (std_landmark : ℚ × ℚ)
    (observations : List LandmarkObs) (map_landmarks : List Landmark) (s : PFState) (i : ℕ)
    (hi : i < s.particles.length) (_hm : map_landmarks ≠ []) :
    (particleAt (updateWeights M sensor_range std_landmark observations map_landmarks s)
        i).weight =
      (observations.map (fun observation =>
        normPdf2d M
          (transform_obs M (particleAt s i).x (particleAt s i).y (particleAt s i).theta
            observation).x
          (transform_obs M (particleAt s i).x (particleAt s i).y (particleAt s i).theta
            observation).y
          (map_landmarks.getD
            (dataAssociation (transform_obs M (particleAt s i).x (particleAt s i).y
              (particleAt s i).theta observation) map_landmarks) dfltLandmark).x_f
          (map_landmarks.getD
            (dataAssociation (transform_obs M (particleAt s i).x (particleAt s i).y
              (particleAt s i).theta observation) map_landmarks) dfltLandmark).y_f
          std_landmark.1 std_landmark.2)).prod := by
  have h1 : (updateWeights M sensor_range std_landmark observations map_landmarks s).particles =
      s.particles.map (fun p =>
        { p with weight := particleWeight M std_landmark observations map_landmarks p }) := by
    simp [updateWeights, uw_foldl M std_landmark observations map_landmarks s.particles]
  simp only [particleAt, h1, getD_map_particle _ s.particles i hi]
  exact particleWeight_eq_prod M std_landmark observations map_landmarks
    (s.particles.getD i dfltParticle)

/-- Witness for C4 at a concrete one-observation, one-landmark input. -/
theorem c4_updateWeights_product_witness :
    ((0 : ℕ) < csState.particles.length ∧ [lmTest] ≠ []) ∧
      (particleAt (updateWeights M1 50 (1, 1) [oTest] [lmTest] csState) 0).weight =
        ([oTest].map (fun observation =>
          normPdf2d M1
            (transform_obs M1 (particleAt csState 0).x (particleAt csState 0).y
              (particleAt csState 0).theta observation).x
            (transform_obs M1 (particleAt csState 0).x (particleAt csState 0).y
              (particleAt csState 0).theta observation).y
            ([lmTest].getD
              (dataAssociation (transform_obs M1 (particleAt csState 0).x
                (particleAt csState 0).y (particleAt csState 0).theta observation)
                [lmTest]) dfltLandmark).x_f
            ([lmTest].getD
              (dataAssociation (transform_obs M1 (particleAt csState 0).x
                (particleAt csState 0).y (particleAt csState 0).theta observation)
                [lmTest]) dfltLandmark).y_f
            1 1)).prod :=
  ⟨⟨by decide, by simp⟩,
    c4_updateWeights_product M1 50 (1, 1) [oTest] [lmTest] csState 0 (by decide) (by simp)⟩

/-- Every per-particle weight computed by `updateWeights` is nonnegative
when the density's ingredients are (the weight is a product of densities
starting from 1). -/
theorem particleWeight_nonneg (M : MathModel) (std_landmark : ℚ × ℚ)
    (observations : List LandmarkObs) (map_landmarks : List Landmark) (p : Particle)
    (hexp : ∀ q : ℚ, 0 ≤ M.expf q) (hpi : 0 ≤ M.inv2pi)
    (hsx : 0 < std_landmark.1) (hsy : 0 < std_landmark.2) :
    0 ≤ particleWeight M std_landmark observations map_landmarks p := by
  rw [particleWeight_eq_prod]
  apply List.prod_nonneg
  intro a ha
  rcases List.mem_map.mp ha with ⟨observation, _, ho⟩
  rw [← ho, normPdf2d]
  exact mul_nonneg (div_nonneg hpi (mul_pos hsx hsy).le) (hexp _)

/-- C6.  After `updateWeights` runs on a non-empty particle set, the cached
`max_weight` is the maximum of the new weights: some particle's weight
equals it, and no particle's weight exceeds it.  The density ingredients
are nonnegative (`exp ≥ 0`, `1/(2π) ≥ 0`, positive standard deviations), as
they are for the real Gaussian. -/
theorem c6_max_weight_cached (M : MathModel) (sensor_range : ℚ) (std_landmark : ℚ × ℚ)
    (observations : List LandmarkObs) (map_landmarks : List Landmark) (s : PFState)
    (hne : s.particles ≠ [])
    (hexp : ∀ q : ℚ, 0 ≤ M.expf q) (hpi : 0 ≤ M.inv2pi)
    (hsx : 0 < std_landmark.1) (hsy : 0 < std_landmark.2) :
    (∃ p ∈ (updateWeights M sensor_range std_landmark observations map_landmarks s).particles,
        p.weight =
          (updateWeights M sensor_range std_landmark observations map_landmarks s).max_weight) ∧
      ∀ p ∈ (updateWeights M sensor_range std_landmark observations map_landmarks s).particles,
        p.weight ≤
          (updateWeights M sensor_range std_landmark observations map_landmarks s).max_weight := by
  have h1 : (updateWeights M sensor_range std_landmark observations map_landmarks s).particles =
      s.particles.map (fun p =>
        { p with weight := particleWeight M std_landmark observations map_landmarks p }) := by
    simp [updateWeights, uw_foldl M std_landmark observations map_landmarks s.particles]
  have h2 : (updateWeights M sensor_range std_landmark observations map_landmarks s).max_weight =
      (s.particles.map (particleWeight M std_landmark observations map_landmarks)).foldl
        (fun m w => if m < w then w else m) 0 := by
    simp [updateWeights, uw_foldl M std_landmark observations map_landmarks s.particles]
  constructor
  · rcases foldl_max_cases
        (s.particles.map (particleWeight M std_landmark observations map_landmarks)) 0 with
      h | ⟨x, hx, hfx⟩
    · rcases hq : s.particles with _ | ⟨q, qs⟩
      · exact absurd hq hne
      · refine ⟨{ q with
            weight := particleWeight M std_landmark observations map_landmarks q }, ?_, ?_⟩
        · rw [h1, hq]
          exact List.mem_map_of_mem _ (List.mem_cons_self q qs)
        · have hle : particleWeight M std_landmark observations map_landmarks q ≤ 0 := by
            have := foldl_max_ge_mem
              (s.particles.map (particleWeight M std_landmark observations map_landmarks)) 0
              (particleWeight M std_landmark observations map_landmarks q)
              (by rw [hq]; exact List.mem_map_of_mem _ (List.mem_cons_self q qs))
            rw [h] at this
            exact this
          have hge := particleWeight_nonneg M std_landmark observations map_landmarks q
            hexp hpi hsx hsy
          rw [h2, h]
          exact le_antisymm hle hge
    · rcases List.mem_map.mp hx with ⟨q, hq, hqx⟩
      refine ⟨{ q with
          weight := particleWeight M std_landmark observations map_landmarks q }, ?_, ?_⟩
      · rw [h1]
        exact List.mem_map_of_mem _ hq
      · rw [h2, hfx, ← hqx]
  · intro p hp
    rw [h1] at hp
    rcases List.mem_map.mp hp with ⟨q, hq, hqp⟩
    rw [← hqp, h2]
    exact foldl_max_ge_mem _ 0 _ (List.mem_map_of_mem _ hq)

/-- Witness for C6 at a concrete one-particle, one-observation input. -/
theorem c6_max_weight_cached_witness :
    (csState.particles ≠ [] ∧ (∀ q : ℚ, 0 ≤ M1.expf q) ∧ 0 ≤ M1.inv2pi ∧
        (0:ℚ) < (((1:ℚ), (1:ℚ)) : ℚ × ℚ).1 ∧ (0:ℚ) < (((1:ℚ), (1:ℚ)) : ℚ × ℚ).2) ∧
      ((∃ p ∈ (updateWeights M1 50 (1, 1) [oTest] [lmTest] csState).particles,
          p.weight = (updateWeights M1 50 (1, 1) [oTest] [lmTest] csState).max_weight) ∧
        ∀ p ∈ (updateWeights M1 50 (1, 1) [oTest] [lmTest] csState).particles,
          p.weight ≤ (updateWeights M1 50 (1, 1) [oTest] [lmTest] csState).max_weight) :=
  ⟨⟨by simp [csState], fun q => zero_le_one, zero_le_one, zero_lt_one, zero_lt_one⟩,
    c6_max_weight_cached M1 50 (1, 1) [oTest] [lmTest] csState (by simp [csState])
      (fun q => zero_le_one) zero_le_one zero_lt_one zero_lt_one⟩

theorem mod_reach (N a b : ℕ) (hN : 0 < N) (ha : a < N) (hb : b < N) :
    ∃ k, k < N ∧ (a + k) % N = b := by
  refine ⟨(b + N - a) % N, Nat.mod_lt _ hN, ?_⟩
  rw [Nat.add_mod_mod, Nat.add_sub_cancel' (le_trans (le_of_lt ha) (Nat.le_add_left N b)),
    Nat.add_mod_right, Nat.mod_eq_of_lt hb]

/-- When the wheel's while loop finishes, the accumulator does not exceed
the weight at the final index, and the final index is in range. -/
theorem wheelWhile_post (ws : List ℚ) (N : ℕ) :
    ∀ fuel b index b' index', wheelWhile ws N fuel b index = some (b', index') →
      b' ≤ ws.getD index' 0 ∧ (index < N → 0 < N → index' < N) := by
  intro fuel
  induction fuel with
  | zero =>
    intro b index b' index' h
    rw [wheelWhile] at h
    by_cases hc : ws.getD index 0 < b
    · rw [if_pos hc] at h
      exact absurd h (by simp)
    · rw [if_neg hc] at h
      simp only [Option.some.injEq, Prod.mk.injEq] at h
      obtain ⟨h1, h2⟩ := h
      subst h1; subst h2
      exact ⟨not_lt.mp hc, fun hi _ => hi⟩
  | succ f ih =>
    intro b index b' index' h
    rw [wheelWhile] at h
    by_cases hc : ws.getD index 0 < b
    · rw [if_pos hc] at h
      have hrec := ih _ _ _ _ h
      exact ⟨hrec.1, fun _ hN => hrec.2 (Nat.mod_lt _ hN) hN⟩
    · rw [if_neg hc] at h
      simp only [Option.some.injEq, Prod.mk.injEq] at h
      obtain ⟨h1, h2⟩ := h
      subst h1; subst h2
      exact ⟨not_lt.mp hc, fun hi _ => hi⟩

/-- Phase-one termination of the wheel's while loop: if the accumulator is
below the weight at some position `j` reachable in `k` forward steps, the
loop exits within `k` iterations. -/
theorem wheelWhile_reaches (ws : List ℚ) (N j : ℕ) (hj : j < N)
    (hnn : ∀ i : ℕ, 0 ≤ ws.getD i 0) :
    ∀ k index b fuel, index < N → (index + k) % N = j → b ≤ ws.getD j 0 → k ≤ fuel →
      ∃ p, wheelWhile ws N fuel b index = some p := by
  intro k
  induction k with
  | zero =>
    intro index b fuel hidx hmod hb _
    have hij : index = j := by rwa [Nat.add_zero, Nat.mod_eq_of_lt hidx] at hmod
    subst hij
    have hc : ¬ ws.getD index 0 < b := not_lt.mpr hb
    cases fuel with
    | zero => exact ⟨(b, index), by rw [wheelWhile, if_neg hc]⟩
    | succ f => exact ⟨(b, index), by rw [wheelWhile, if_neg hc]⟩
  | succ k ih =>
    intro index b fuel hidx hmod hb hk
    by_cases hc : ws.getD index 0 < b
    · have hN : 0 < N := lt_of_le_of_lt (Nat.zero_le j) hj
      cases fuel with
      | zero => omega
      | succ f =>
        obtain ⟨p, hp⟩ := ih ((index + 1) % N) (b - ws.getD index 0) f (Nat.mod_lt _ hN)
          (by rw [Nat.mod_add_mod, show index + 1 + k = index + (k + 1) from by omega]
              exact hmod)
          (le_trans (sub_le_self b (hnn index)) hb) (by omega)
        exact ⟨p, by rw [wheelWhile, if_pos hc]; exact hp⟩
    · cases fuel with
      | zero => exact ⟨(b, index), by rw [wheelWhile, if_neg hc]⟩
      | succ f => exact ⟨(b, index), by rw [wheelWhile, if_neg hc]⟩

/-- Full termination of the wheel's while loop: starting anywhere with an
accumulator of at most twice the maximal weight (located at `j`, reachable
in `k` steps), the loop exits within `k + N` iterations — it passes `j`
once, which brings the accumulator below the maximal weight, and then
exits by the time it reaches `j` again. -/
theorem wheelWhile_terminates (ws : List ℚ) (N j : ℕ) (hj : j < N)
    (hnn : ∀ i : ℕ, 0 ≤ ws.getD i 0) :
    ∀ k index b fuel, index < N → (index + k) % N = j → b ≤ 2 * ws.getD j 0 →
      k + N ≤ fuel → ∃ p, wheelWhile ws N fuel b index = some p := by
  intro k
  induction k with
  | zero =>
    intro index b fuel hidx hmod hb hk
    have hij : index = j := by rwa [Nat.add_zero, Nat.mod_eq_of_lt hidx] at hmod
    by_cases hc : ws.getD index 0 < b
    · have hN : 0 < N := lt_of_le_of_lt (Nat.zero_le j) hj
      cases fuel with
      | zero => omega
      | succ f =>
        obtain ⟨k1, hk1N, hk1⟩ := mod_reach N ((index + 1) % N) j hN (Nat.mod_lt _ hN) hj
        obtain ⟨p, hp⟩ := wheelWhile_reaches ws N j hj hnn k1 ((index + 1) % N)
          (b - ws.getD index 0) f (Nat.mod_lt _ hN) hk1 (by rw [hij]; linarith) (by omega)
        exact ⟨p, by rw [wheelWhile, if_pos hc]; exact hp⟩
    · cases fuel with
      | zero => exact ⟨(b, index), by rw [wheelWhile, if_neg hc]⟩
      | succ f => exact ⟨(b, index), by rw [wheelWhile, if_neg hc]⟩
  | succ k ih =>
    intro index b fuel hidx hmod hb hk
    by_cases hc : ws.getD index 0 < b
    · have hN : 0 < N := lt_of_le_of_lt (Nat.zero_le j) hj
      cases fuel with
      | zero => omega
      | succ f =>
        obtain ⟨p, hp⟩ := ih ((index + 1) % N) (b - ws.getD index 0) f (Nat.mod_lt _ hN)
          (by rw [Nat.mod_add_mod, show index + 1 + k = index + (k + 1) from by omega]
              exact hmod)
          (le_trans (sub_le_self b (hnn index)) hb) (by omega)
        exact ⟨p, by rw [wheelWhile, if_pos hc]; exact hp⟩
    · cases fuel with
      | zero => exact ⟨(b, index), by rw [wheelWhile, if_neg hc]⟩
      | succ f => exact ⟨(b, index), by rw [wheelWhile, if_neg hc]⟩

/-- The resampling-wheel loop terminates within per-draw fuel `2 * N` and
produces one appended copy of an existing particle per draw, provided the
cached `max_weight` really is the maximum weight (located at `j`), is
positive, all weights are nonnegative, and the uniform draws lie in
`[0, 1]`. -/
theorem resampleLoop_some (ps : List Particle) (N : ℕ) (mw : ℚ) (u : ℕ → ℚ) (j : ℕ)
    (hN : N = ps.length) (hj : j < N)
    (hjw : (ps.map Particle.weight).getD j 0 = mw)
    (hnn : ∀ i : ℕ, 0 ≤ (ps.map Particle.weight).getD i 0)
    (hmax : ∀ i : ℕ, (ps.map Particle.weight).getD i 0 ≤ mw)
    (hu : ∀ i, 0 ≤ u i ∧ u i ≤ 1) :
    ∀ r i b index acc, index < N → b ≤ mw →
      ∃ l, resampleLoop ps (ps.map Particle.weight) N mw u (2 * N) i r b index acc = some l ∧
        l.length = acc.length + r ∧ ∀ q ∈ l, q ∈ acc ∨ q ∈ ps := by
  have hN0 : 0 < N := lt_of_le_of_lt (Nat.zero_le j) hj
  have hmw0 : 0 ≤ mw := hjw ▸ hnn j
  intro r
  induction r with
  | zero =>
    intro i b index acc _ _
    exact ⟨acc, by rw [resampleLoop], rfl, fun q hq => Or.inl hq⟩
  | succ r ih =>
    intro i b index acc hidx hb
    have hb1 : b + u i * mw ≤ 2 * (ps.map Particle.weight).getD j 0 := by
      rw [hjw]
      have h1 : u i * mw ≤ 1 * mw := mul_le_mul_of_nonneg_right (hu i).2 hmw0
      linarith
    obtain ⟨k, hkN, hk⟩ := mod_reach N index j hN0 hidx hj
    obtain ⟨⟨b', index'⟩, hw⟩ := wheelWhile_terminates (ps.map Particle.weight) N j hj hnn
      k index (b + u i * mw) (2 * N) hidx hk hb1 (by omega)
    obtain ⟨hble, hpidx⟩ := wheelWhile_post (ps.map Particle.weight) N (2 * N)
      (b + u i * mw) index b' index' hw
    have hidx' : index' < N := hpidx hidx hN0
    obtain ⟨l, hleq, hlen, hmem⟩ := ih (i + 1) b' index'
      (acc ++ [ps.getD index' dfltParticle]) hidx' (le_trans hble (hmax index'))
    refine ⟨l, ?_, ?_, ?_⟩
    · rw [resampleLoop, hw]
      exact hleq
    · rw [hlen, List.length_append]
      simp
      omega
    · intro q hq
      rcases hmem q hq with hacc | hps
      · rcases List.mem_append.mp hacc with h | h
        · exact Or.inl h
        · right
          have hq' : q = ps.getD index' dfltParticle := by simpa using h
          rw [hq', List.getD_eq_getElem ps dfltParticle (by rw [← hN]; exact hidx')]
          exact List.getElem_mem _
      · exact Or.inr hps

/-- C2 amended.  `resample` follows the stochastic wheel with the starting
index fixed at 0 (the `discrete_distribution` misuse makes the "uniform"
index draw constantly 0): it equals the claim's wheel algorithm at start
index 0, and — under the spec's preconditions (fresh positive maximal
weight, nonnegative weights, consistent `num_particles`, draws in `[0,1]`)
— it terminates within per-draw fuel `2N` with a new set of exactly `N`
particles, each a copy of some pre-call particle. -/
theorem c2_resample_wheel_start_zero (s : PFState) (u : ℕ → ℚ)
    (hlen : s.num_particles = s.particles.length)
    (hne : s.particles ≠ [])
    (hmem : s.max_weight ∈ s.particles.map Particle.weight)
    (hmax : ∀ w ∈ s.particles.map Particle.weight, w ≤ s.max_weight)
    (hpos : 0 < s.max_weight)
    (hwnn : ∀ w ∈ s.particles.map Particle.weight, 0 ≤ w)
    (hu : ∀ i, 0 ≤ u i ∧ u i ≤ 1) :
    resample u (2 * s.num_particles) s = resampleWheelSpec u (2 * s.num_particles) 0 s ∧
      ∃ l, resample u (2 * s.num_particles) s = some { s with particles := l } ∧
        l.length = s.num_particles ∧ ∀ q ∈ l, q ∈ s.particles := by
  refine ⟨rfl, ?_⟩
  obtain ⟨⟨j, hjl⟩, hget⟩ := List.mem_iff_get.mp hmem
  have hjred : j < s.num_particles := by
    rw [hlen]
    simpa using hjl
  have hjw : (s.particles.map Particle.weight).getD j 0 = s.max_weight := by
    rw [List.getD_eq_getElem _ _ hjl]
    simpa using hget
  have hnn : ∀ i : ℕ, 0 ≤ (s.particles.map Particle.weight).getD i 0 := by
    intro i
    by_cases h : i < (s.particles.map Particle.weight).length
    · rw [List.getD_eq_getElem _ _ h]
      exact hwnn _ (List.getElem_mem _)
    · rw [List.getD_eq_default _ _ (le_of_not_lt h)]
  have hmax' : ∀ i : ℕ, (s.particles.map Particle.weight).getD i 0 ≤ s.max_weight := by
    intro i
    by_cases h : i < (s.particles.map Particle.weight).length
    · rw [List.getD_eq_getElem _ _ h]
      exact hmax _ (List.getElem_mem _)
    · rw [List.getD_eq_default _ _ (le_of_not_lt h)]
      exact hpos.le
  have h0N : 0 < s.num_particles := by
    rw [hlen]
    exact List.length_pos.mpr hne
  obtain ⟨l, hleq, hlenl, hmeml⟩ := resampleLoop_some s.particles s.num_particles
    s.max_weight u j hlen hjred hjw hnn hmax' hu s.num_particles 0 0 0 [] h0N hpos.le
  refine ⟨l, ?_, by simpa using hlenl, fun q hq => (hmeml q hq).resolve_left (by simp)⟩
  simp only [resample, hleq]

/-- C2 counterexample.  The claim says the starting index of the wheel is
drawn uniformly at random from `[0, N)`.  On the concrete two-particle
state with weights `[0, 1]` the code's `resample` (whose starting index is
the constant 0, because `discrete_distribution(0, num_particles)` builds an
empty weight vector and always yields 0) returns two copies of particle 0,
while the claim's wheel started at the perfectly legitimate uniform draw 1
returns two copies of particle 1: the code does not follow the claimed
algorithm for any nonzero start draw. -/
theorem c2_start_index_counterexample :
    resample (fun _ => 0) 4 csState = some { csState with particles := [pz0, pz0] } ∧
      resampleWheelSpec (fun _ => 0) 4 1 csState =
        some { csState with particles := [pw1, pw1] } ∧
      resample (fun _ => 0) 4 csState ≠ resampleWheelSpec (fun _ => 0) 4 1 csState := by
  have h1 : resample (fun _ => 0) 4 csState = some { csState with particles := [pz0, pz0] } := by
    norm_num [resample, resampleLoop, wheelWhile, csState, pz0, pw1]
  have h2 : resampleWheelSpec (fun _ => 0) 4 1 csState =
      some { csState with particles := [pw1, pw1] } := by
    norm_num [resampleWheelSpec, resampleLoop, wheelWhile, csState, pz0, pw1]
  refine ⟨h1, h2, ?_⟩
  rw [h1, h2]
  simp [csState, pz0, pw1]

/-- Witness for C2 at the concrete state `csState` (weights `[0, 1]`,
`max_weight = 1`) with the constant-zero draw stream. -/
theorem c2_resample_wheel_start_zero_witness :
    ((0:ℚ) < csState.max_weight ∧ csState.particles ≠ []) ∧
      ∃ l, resample (fun _ => 0) (2 * csState.num_particles) csState =
          some { csState with particles := l } ∧
        l.length = csState.num_particles ∧ ∀ q ∈ l, q ∈ csState.particles :=
  ⟨⟨by norm_num [csState], by simp [csState]⟩,
    (c2_resample_wheel_start_zero csState (fun _ => 0) rfl (by simp [csState])
      (by simp [csState, pz0, pw1])
      (by intro w hw; simp [csState, pz0, pw1] at hw; rcases hw with h | h <;> norm_num [h, csState])
      (by norm_num [csState])
      (by intro w hw; simp [csState, pz0, pw1] at hw; rcases hw with h | h <;> norm_num [h])
      (fun i => ⟨le_refl 0, by norm_num⟩)).2⟩

/-- With `max_weight = 0` every draw adds 0 to the accumulator, the while
loop exits immediately at index 0, and every appended particle is the one
at the starting index 0. -/
theorem resampleLoop_allzero (ps : List Particle) (u : ℕ → ℚ) (N F : ℕ)
    (h0 : (ps.map Particle.weight).getD 0 0 = 0) :
    ∀ r i acc, resampleLoop ps (ps.map Particle.weight) N 0 u F i r 0 0 acc =
      some (acc ++ List.replicate r (ps.getD 0 dfltParticle)) := by
  intro r
  induction r with
  | zero =>
    intro i acc
    rw [resampleLoop]
    simp
  | succ r ih =>
    intro i acc
    rw [resampleLoop]
    have hb : (0:ℚ) + u i * 0 = 0 := by ring
    rw [hb]
    have hc : ¬ (ps.map Particle.weight).getD 0 0 < (0:ℚ) := by
      rw [h0]
      exact lt_irrefl 0
    have hW : wheelWhile (ps.map Particle.weight) N F 0 0 = some (0, 0) := by
      cases F with
      | zero => rw [wheelWhile, if_neg hc]
      | succ f => rw [wheelWhile, if_neg hc]
    rw [hW]
    have hrep : acc ++ [ps.getD 0 dfltParticle] ++ List.replicate r (ps.getD 0 dfltParticle) =
        acc ++ List.replicate (r + 1) (ps.getD 0 dfltParticle) := by
      rw [List.append_assoc, List.singleton_append, ← List.replicate_succ]
    exact (ih (i + 1) (acc ++ [ps.getD 0 dfltParticle])).trans (by rw [hrep])

/-- On an all-zero-weight state (with the correspondingly cached
`max_weight = 0`) `resample` terminates for any fuel and returns
`num_particles` copies of the particle at the fixed starting index 0. -/
theorem resample_allzero (s : PFState) (u : ℕ → ℚ) (F : ℕ)
    (hmw : s.max_weight = 0) (hw0 : ∀ p ∈ s.particles, p.weight = 0) :
    resample u F s =
      some { s with particles := List.replicate s.num_particles (particleAt s 0) } := by
  have h0 : (s.particles.map Particle.weight).getD 0 0 = 0 := by
    rcases hps : s.particles with _ | ⟨q, qs⟩
    · rfl
    · simpa using hw0 q (by rw [hps]; exact List.mem_cons_self q qs)
  rw [resample, hmw, resampleLoop_allzero s.particles u s.num_particles F h0
    s.num_particles 0 []]
  simp [particleAt]

/-- C3 counterexample.  The claim says that with all-zero weights resample
falls back to uniform resampling, every particle having equal selection
probability.  On the concrete all-zero two-particle state, no draw stream
whatsoever can ever select particle 1: the result is always two copies of
particle 0, so there is no uniform fallback. -/
theorem c3_no_uniform_fallback_counterexample :
    ¬ ∃ u : ℕ → ℚ, ∃ s' : PFState, resample u 4 zwState = some s' ∧ pz1 ∈ s'.particles := by
  rintro ⟨u, s', heq, hmem⟩
  rw [resample_allzero zwState u 4 rfl
      (by intro p hp; simp [zwState, pz0, pz1] at hp; rcases hp with h | h <;> simp [h, pz0, pz1])]
    at heq
  obtain rfl := (Option.some.inj heq).symm
  simp [particleAt, zwState, pz0, pz1, List.replicate] at hmem

/-- C3 amended.  When every weight is 0 at the time `resample` is called
(and `max_weight`, cached by `updateWeights`, is therefore 0), `resample`
terminates for every draw stream and fuel, raises no error, and returns a
set of exactly `num_particles` particles — but they are all copies of the
particle at the fixed starting index 0, not a uniform fallback (the code
has no guard for this case). -/
theorem c3_resample_all_zero_weights (s : PFState) (u : ℕ → ℚ) (F : ℕ)
    (hmw : s.max_weight = 0) (hw0 : ∀ p ∈ s.particles, p.weight = 0) :
    resample u F s =
      some { s with particles := List.replicate s.num_particles (particleAt s 0) } :=
  resample_allzero s u F hmw hw0

/-- Witness for C3 at the concrete all-zero two-particle state. -/
theorem c3_resample_all_zero_weights_witness :
    (zwState.max_weight = 0 ∧ ∀ p ∈ zwState.particles, p.weight = 0) ∧
      resample (fun _ => (1:ℚ)/2) 4 zwState =
        some { zwState with
          particles := List.replicate zwState.num_particles (particleAt zwState 0) } :=
  ⟨⟨rfl, by intro p hp; simp [zwState, pz0, pz1] at hp
            rcases hp with h | h <;> simp [h, pz0, pz1]⟩,
    c3_resample_all_zero_weights zwState (fun _ => 1/2) 4 rfl
      (by intro p hp; simp [zwState, pz0, pz1] at hp
          rcases hp with h | h <;> simp [h, pz0, pz1])⟩
